import Mathlib

/-!
# Verification of the SolarSimulation engine

Shallow embedding of the simulation engine of the SolarSimulation
repository: the Electrical Model (`src/simulator/electrical.py`,
`simulate_electrical`) and the feasibility check of `src/app.py`
(the `valid_pairs` whitelist and the TCO/ETL lookup).

Numeric modelling: the Python code computes with machine floats and rounds
with the built-in `round`, whose documented behaviour is round-half-to-even.
We embed the arithmetic exactly over `ℚ` and model `round(x, d)` as
round-half-to-even of `x * 10^d`, divided by `10^d`.
-/

/-- The six layer roles, in the canonical front-to-back order of
`layer_roles` in `app.py`: TCO, ETL, Absorber, HTL, Back Contact,
Encapsulation. -/
inductive Role where
  | TCO
  | ETL
  | Absorber
  | HTL
  | BackContact
  | Encapsulation
deriving DecidableEq

/-- A layer as assembled by `app.py`: a role, a material identifier and a
thickness in nanometers.  (The resolved toxicity is also stored by the app
but is not consumed by the Electrical Model or the feasibility check, so it
is omitted from the embedding.) -/
structure Layer where
  role : Role
  material : String
  thickness : ℕ
deriving DecidableEq

/-- Round-half-to-even of a rational to an integer: the documented
semantics of Python's built-in `round` with one argument. -/
def rhe (q : ℚ) : ℤ :=
  if q - ⌊q⌋ < 1/2 then ⌊q⌋
  else if 1/2 < q - ⌊q⌋ then ⌊q⌋ + 1
  else if ⌊q⌋ % 2 = 0 then ⌊q⌋ else ⌊q⌋ + 1

/-- `round(x, d)` of Python, embedded over `ℚ`: round-half-to-even at `d`
decimal places. -/
def roundTo (d : ℕ) (x : ℚ) : ℚ :=
  (rhe (x * 10 ^ d) : ℚ) / 10 ^ d

/-- `total_thickness = sum(layer["thickness"] for layer in layers)`. -/
def total_thickness (layers : List Layer) : ℕ :=
  (layers.map Layer.thickness).sum

/-- `unique_materials = len(set(layer["material"] for layer in layers))`. -/
def unique_materials (layers : List Layer) : ℕ :=
  (layers.map Layer.material).toFinset.card

/-- The record returned by `simulate_electrical`. -/
structure ElectricalResult where
  pce : ℚ
  voc : ℚ
  jsc : ℚ
  iv_curve : List ℚ
deriving DecidableEq

/-- The body of the iv_curve comprehension of `simulate_electrical`:
`i * 0.05 + 0.01 * total_thickness / 1000`. -/
def iv_point (layers : List Layer) (i : ℕ) : ℚ :=
  (i : ℚ) * (5/100) + (1/100) * (total_thickness layers : ℚ) / 1000

/-- `simulate_electrical` of `src/simulator/electrical.py`, embedded over
exact rationals:

* `iv_curve = [i * 0.05 + 0.01 * total_thickness / 1000 for i in range(100)]`
* `pce = round(10 + 0.1 * unique_materials + 0.005 * total_thickness, 2)`
* `voc = round(0.6 + 0.01 * unique_materials, 2)`
* `jsc = round(20 + 0.02 * total_thickness, 1)`
-/
def simulate_electrical (layers : List Layer) : ElectricalResult :=
  { pce := roundTo 2 (10 + 1/10 * (unique_materials layers : ℚ)
      + 5/1000 * (total_thickness layers : ℚ))
    voc := roundTo 2 (6/10 + 1/100 * (unique_materials layers : ℚ))
    jsc := roundTo 1 (20 + 2/100 * (total_thickness layers : ℚ))
    iv_curve := (List.range 100).map (iv_point layers) }

/-- The whitelist `valid_pairs = [("FTO","TiO2"),("FTO","SnO2"),("AZO","ZnO")]`
of `app.py`. -/
def valid_pairs : List (String × String) :=
  [("FTO", "TiO2"), ("FTO", "SnO2"), ("AZO", "ZnO")]

/-- The result of the feasibility check: passed, plus the offending
(TCO material, ETL material) pair when it fails. -/
structure FeasibilityResult where
  passed : Bool
  offending : Option (String × String)
deriving DecidableEq

/-- `tco = next((l for l in layers if l["role"] == "TCO"), None)`. -/
def findTCO (layers : List Layer) : Option Layer :=
  layers.find? (fun l => l.role = Role.TCO)

/-- `etl = next((l for l in layers if l["role"] == "ETL"), None)`. -/
def findETL (layers : List Layer) : Option Layer :=
  layers.find? (fun l => l.role = Role.ETL)

/-- The feasibility check of `app.py`:
`if tco and etl and (tco["material"], etl["material"]) not in valid_pairs`
fails with the offending pair, otherwise passes. -/
def feasibility_check (layers : List Layer) : FeasibilityResult :=
  match findTCO layers, findETL layers with
  | some t, some e =>
      if (t.material, e.material) ∈ valid_pairs then ⟨true, none⟩
      else ⟨false, some (t.material, e.material)⟩
  | _, _ => ⟨true, none⟩

/-- Canonical role order of `app.py`, as a list. -/
def layer_roles : List Role :=
  [Role.TCO, Role.ETL, Role.Absorber, Role.HTL, Role.BackContact,
   Role.Encapsulation]

/-- A stack as `app.py` constructs it: between 2 and 6 layers, roles
assigned in the canonical order, positive thicknesses. -/
def validStack (layers : List Layer) : Prop :=
  2 ≤ layers.length ∧ layers.length ≤ 6 ∧
  layers.map Layer.role = layer_roles.take layers.length ∧
  ∀ l ∈ layers, 0 < l.thickness

instance : DecidablePred validStack := fun layers => by
  unfold validStack
  infer_instance

/-- Structural validity as stated by the error-handling contract: 2 to 6
layers, each with a positive integer thickness. -/
def structurallyValid (layers : List Layer) : Prop :=
  2 ≤ layers.length ∧ layers.length ≤ 6 ∧ ∀ l ∈ layers, 0 < l.thickness

instance : DecidablePred structurallyValid := fun layers => by
  unfold structurallyValid
  infer_instance

/-- The end-to-end sample stack of the spec:
TCO=FTO/50nm, ETL=TiO2/30nm, Absorber=Si/300nm. -/
def sampleStack : List Layer :=
  [⟨Role.TCO, "FTO", 50⟩, ⟨Role.ETL, "TiO2", 30⟩, ⟨Role.Absorber, "Si", 300⟩]

/-! ## Properties of round-half-to-even -/

lemma rhe_intCast (k : ℤ) : rhe (k : ℚ) = k := by
  simp [rhe]

lemma floor_le_rhe (q : ℚ) : ⌊q⌋ ≤ rhe q := by
  unfold rhe
  split_ifs <;> omega

lemma rhe_le_floor_add_one (q : ℚ) : rhe q ≤ ⌊q⌋ + 1 := by
  unfold rhe
  split_ifs <;> omega

lemma rhe_mono {x y : ℚ} (h : x ≤ y) : rhe x ≤ rhe y := by
  rcases lt_or_le ⌊x⌋ ⌊y⌋ with hf | hf
  · have h1 := rhe_le_floor_add_one x
    have h2 := floor_le_rhe y
    omega
  · have hfe : ⌊x⌋ = ⌊y⌋ := le_antisymm (Int.floor_mono h) hf
    unfold rhe
    rw [hfe]
    split_ifs <;> first | omega | linarith

lemma sub_one_lt_rhe (q : ℚ) : q - 1 < (rhe q : ℚ) := by
  have h1 : q - 1 < (⌊q⌋ : ℚ) := Int.sub_one_lt_floor q
  have h2 : ((⌊q⌋ : ℤ) : ℚ) ≤ (rhe q : ℚ) := by
    exact_mod_cast floor_le_rhe q
  linarith

lemma rhe_le_add_one (q : ℚ) : (rhe q : ℚ) ≤ q + 1 := by
  have h1 : (rhe q : ℚ) ≤ ((⌊q⌋ : ℤ) : ℚ) + 1 := by
    exact_mod_cast rhe_le_floor_add_one q
  have h2 : ((⌊q⌋ : ℤ) : ℚ) ≤ q := Int.floor_le q
  linarith

lemma roundTo_mono (d : ℕ) {x y : ℚ} (h : x ≤ y) : roundTo d x ≤ roundTo d y := by
  unfold roundTo
  have hpow : (0 : ℚ) < 10 ^ d := by positivity
  have hr : rhe (x * 10 ^ d) ≤ rhe (y * 10 ^ d) :=
    rhe_mono (mul_le_mul_of_nonneg_right h (le_of_lt hpow))
  exact (div_le_div_right hpow).mpr (by exact_mod_cast hr)

lemma sub_lt_roundTo (d : ℕ) (x : ℚ) : x - 1 / 10 ^ d < roundTo d x := by
  unfold roundTo
  have hpow : (0 : ℚ) < 10 ^ d := by positivity
  have h := sub_one_lt_rhe (x * 10 ^ d)
  rw [lt_div_iff hpow]
  have hx : (x - 1 / 10 ^ d) * 10 ^ d = x * 10 ^ d - 1 := by
    field_simp
  rw [hx]
  exact h

lemma roundTo_le_add (d : ℕ) (x : ℚ) : roundTo d x ≤ x + 1 / 10 ^ d := by
  unfold roundTo
  have hpow : (0 : ℚ) < 10 ^ d := by positivity
  have h := rhe_le_add_one (x * 10 ^ d)
  rw [div_le_iff hpow]
  have hx : (x + 1 / 10 ^ d) * 10 ^ d = x * 10 ^ d + 1 := by
    field_simp
  rw [hx]
  exact h

lemma roundTo_intCast_div (d : ℕ) (k : ℤ) :
    roundTo d ((k : ℚ) / 10 ^ d) = (k : ℚ) / 10 ^ d := by
  unfold roundTo
  have hpow : (10 : ℚ) ^ d ≠ 0 := by positivity
  rw [div_mul_cancel₀ _ hpow, rhe_intCast]

lemma roundTo_roundTo (d : ℕ) (x : ℚ) :
    roundTo d (roundTo d x) = roundTo d x := by
  have : roundTo d x = ((rhe (x * 10 ^ d) : ℚ) / 10 ^ d) := rfl
  rw [this, roundTo_intCast_div]

/-! ## Basic facts about the embedded operations -/

lemma layer_ext_of_fields {a b : Layer}
    (h : (a.role, a.material, a.thickness) = (b.role, b.material, b.thickness)) :
    a = b := by
  cases a
  cases b
  simp_all

/-! ## Claims -/

/-- C1: the Electrical Model is deterministic and pure: two stacks with the
same roles, materials and thicknesses in the same order yield identical
results (equal pce, voc, jsc, and equal iv_curve), with no dependence on
any state outside the argument (the embedding is a pure function of the
layer list). -/
theorem electrical_deterministic (s1 s2 : List Layer)
    (h : s1.map (fun l => (l.role, l.material, l.thickness)) =
         s2.map (fun l => (l.role, l.material, l.thickness))) :
    (simulate_electrical s1).pce = (simulate_electrical s2).pce ∧
    (simulate_electrical s1).voc = (simulate_electrical s2).voc ∧
    (simulate_electrical s1).jsc = (simulate_electrical s2).jsc ∧
    (simulate_electrical s1).iv_curve = (simulate_electrical s2).iv_curve := by
  have hinj : Function.Injective
      (fun l : Layer => (l.role, l.material, l.thickness)) := by
    intro a b hab
    exact layer_ext_of_fields hab
  have hs : s1 = s2 := List.map_injective_iff.mpr hinj h
  subst hs
  exact ⟨rfl, rfl, rfl, rfl⟩

theorem electrical_deterministic_witness :
    (simulate_electrical sampleStack).pce = (simulate_electrical sampleStack).pce ∧
    (simulate_electrical sampleStack).voc = (simulate_electrical sampleStack).voc ∧
    (simulate_electrical sampleStack).jsc = (simulate_electrical sampleStack).jsc ∧
    (simulate_electrical sampleStack).iv_curve = (simulate_electrical sampleStack).iv_curve :=
  electrical_deterministic sampleStack sampleStack rfl

/-- C2: for every valid stack the iv_curve has exactly 100 points, and the
point at index i is the linear function `i * 0.05 + 0.01 * total_thickness
/ 1000` of the index and the stack's total thickness. -/
theorem iv_curve_points (layers : List Layer) (h : validStack layers) :
    (simulate_electrical layers).iv_curve.length = 100 ∧
    ∀ i (hi : i < (simulate_electrical layers).iv_curve.length),
      (simulate_electrical layers).iv_curve.get ⟨i, hi⟩
        = (i : ℚ) * (5/100) + (1/100) * (total_thickness layers : ℚ) / 1000 := by
  have hiv : (simulate_electrical layers).iv_curve
      = (List.range 100).map (iv_point layers) := rfl
  constructor
  · rw [hiv, List.length_map, List.length_range]
  · intro i hi
    rw [List.get_eq_getElem]
    simp only [hiv, List.getElem_map, List.getElem_range]
    rfl

theorem iv_curve_points_witness :
    (simulate_electrical sampleStack).iv_curve.length = 100 :=
  (iv_curve_points sampleStack (by decide)).1

/-- C5: the feasibility check passes on any stack whose TCO layer has
material "FTO" and whose ETL layer has material "TiO2", and fails on any
stack whose TCO layer has material "ITO" and whose ETL layer has material
"ZnO", reporting the offending pair ("ITO", "ZnO"). -/
theorem feasibility_fto_tio2_ito_zno
    (s1 s2 : List Layer) (t1 e1 t2 e2 : Layer)
    (h1t : findTCO s1 = some t1) (h1e : findETL s1 = some e1)
    (hm1t : t1.material = "FTO") (hm1e : e1.material = "TiO2")
    (h2t : findTCO s2 = some t2) (h2e : findETL s2 = some e2)
    (hm2t : t2.material = "ITO") (hm2e : e2.material = "ZnO") :
    (feasibility_check s1).passed = true ∧
    feasibility_check s2 = ⟨false, some ("ITO", "ZnO")⟩ := by
  constructor
  · unfold feasibility_check
    rw [h1t, h1e]
    simp [hm1t, hm1e, valid_pairs]
  · unfold feasibility_check
    rw [h2t, h2e]
    simp [hm2t, hm2e, valid_pairs]

theorem feasibility_fto_tio2_ito_zno_witness :
    (feasibility_check
      [⟨Role.TCO, "FTO", 50⟩, ⟨Role.ETL, "TiO2", 30⟩]).passed = true ∧
    feasibility_check [⟨Role.TCO, "ITO", 50⟩, ⟨Role.ETL, "ZnO", 30⟩]
      = ⟨false, some ("ITO", "ZnO")⟩ :=
  feasibility_fto_tio2_ito_zno
    [⟨Role.TCO, "FTO", 50⟩, ⟨Role.ETL, "TiO2", 30⟩]
    [⟨Role.TCO, "ITO", 50⟩, ⟨Role.ETL, "ZnO", 30⟩]
    _ _ _ _ rfl rfl rfl rfl rfl rfl rfl rfl

/-- C6: the feasibility check trivially passes when the TCO layer or the
ETL layer is absent, and it fails exactly when both are present and their
ordered material pair is outside the whitelist. -/
theorem feasibility_characterization (layers : List Layer) :
    ((findTCO layers = none ∨ findETL layers = none) →
      (feasibility_check layers).passed = true) ∧
    ((feasibility_check layers).passed = false ↔
      ∃ t e, findTCO layers = some t ∧ findETL layers = some e ∧
        (t.material, e.material) ∉ valid_pairs) := by
  rcases htco : findTCO layers with _ | t
  · constructor
    · intro _
      simp [feasibility_check, htco]
    · simp [feasibility_check, htco]
  · rcases hetl : findETL layers with _ | e
    · constructor
      · intro _
        simp [feasibility_check, htco, hetl]
      · simp [feasibility_check, htco, hetl]
    · constructor
      · intro hcontra
        rcases hcontra with hh | hh <;> exact absurd hh (by simp)
      · by_cases hmem : (t.material, e.material) ∈ valid_pairs
        · simp [feasibility_check, htco, hetl, hmem]
        · simp [feasibility_check, htco, hetl, hmem]

theorem feasibility_characterization_witness :
    (feasibility_check []).passed = true :=
  (feasibility_characterization []).1 (Or.inl rfl)

/-- C10: voc depends only on the number of distinct materials: two stacks
with the same count of distinct materials have equal voc, regardless of
roles, thicknesses or layer order. -/
theorem voc_depends_only_on_diversity (s1 s2 : List Layer)
    (h : unique_materials s1 = unique_materials s2) :
    (simulate_electrical s1).voc = (simulate_electrical s2).voc := by
  show roundTo 2 (6/10 + 1/100 * (unique_materials s1 : ℚ))
      = roundTo 2 (6/10 + 1/100 * (unique_materials s2 : ℚ))
  rw [h]

theorem voc_depends_only_on_diversity_witness :
    (simulate_electrical sampleStack).voc
      = (simulate_electrical
          [⟨Role.HTL, "NiO", 999⟩, ⟨Role.TCO, "AZO", 10⟩,
           ⟨Role.Absorber, "CIGS", 77⟩]).voc :=
  voc_depends_only_on_diversity _ _ (by decide)

/-- C3: for two stacks identical except that one has a strictly thicker
Absorber layer, the thicker stack's pce and jsc are greater than or equal
to the thinner stack's. -/
theorem pce_jsc_monotone_in_absorber (a b : List Layer) (l1 l2 : Layer)
    (hrole1 : l1.role = Role.Absorber) (hrole2 : l2.role = Role.Absorber)
    (hmat : l1.material = l2.material) (hth : l1.thickness < l2.thickness) :
    (simulate_electrical (a ++ l1 :: b)).pce
        ≤ (simulate_electrical (a ++ l2 :: b)).pce ∧
    (simulate_electrical (a ++ l1 :: b)).jsc
        ≤ (simulate_electrical (a ++ l2 :: b)).jsc := by
  have hu : unique_materials (a ++ l1 :: b) = unique_materials (a ++ l2 :: b) := by
    unfold unique_materials
    rw [List.map_append, List.map_append, List.map_cons, List.map_cons, hmat]
  have hT : (total_thickness (a ++ l1 :: b) : ℚ)
      ≤ (total_thickness (a ++ l2 :: b) : ℚ) := by
    have hn : total_thickness (a ++ l1 :: b) ≤ total_thickness (a ++ l2 :: b) := by
      unfold total_thickness
      rw [List.map_append, List.map_append, List.map_cons, List.map_cons,
        List.sum_append, List.sum_append, List.sum_cons, List.sum_cons]
      omega
    exact_mod_cast hn
  constructor
  · show roundTo 2 _ ≤ roundTo 2 _
    apply roundTo_mono
    rw [hu]
    linarith
  · show roundTo 1 _ ≤ roundTo 1 _
    apply roundTo_mono
    linarith

theorem pce_jsc_monotone_in_absorber_witness :
    (simulate_electrical
        ([⟨Role.TCO, "FTO", 50⟩, ⟨Role.ETL, "TiO2", 30⟩]
          ++ ⟨Role.Absorber, "Si", 300⟩ :: [])).pce
      ≤ (simulate_electrical
        ([⟨Role.TCO, "FTO", 50⟩, ⟨Role.ETL, "TiO2", 30⟩]
          ++ ⟨Role.Absorber, "Si", 400⟩ :: [])).pce ∧
    (simulate_electrical
        ([⟨Role.TCO, "FTO", 50⟩, ⟨Role.ETL, "TiO2", 30⟩]
          ++ ⟨Role.Absorber, "Si", 300⟩ :: [])).jsc
      ≤ (simulate_electrical
        ([⟨Role.TCO, "FTO", 50⟩, ⟨Role.ETL, "TiO2", 30⟩]
          ++ ⟨Role.Absorber, "Si", 400⟩ :: [])).jsc :=
  pce_jsc_monotone_in_absorber
    [⟨Role.TCO, "FTO", 50⟩, ⟨Role.ETL, "TiO2", 30⟩] []
    ⟨Role.Absorber, "Si", 300⟩ ⟨Role.Absorber, "Si", 400⟩
    rfl rfl rfl (by decide)

/-! ## Unboundedness of pce -/

/-- A valid 2-layer stack with an `n` nm thick TCO layer. -/
def twoLayerStack (n : ℕ) : List Layer :=
  [⟨Role.TCO, "FTO", n⟩, ⟨Role.ETL, "TiO2", 1⟩]

lemma validStack_twoLayerStack {n : ℕ} (hn : 0 < n) :
    validStack (twoLayerStack n) := by
  refine ⟨by simp [twoLayerStack], by simp [twoLayerStack], rfl, ?_⟩
  intro l hl
  simp only [twoLayerStack, List.mem_cons, List.mem_singleton] at hl
  rcases hl with rfl | rfl | hl
  · exact hn
  · exact Nat.one_pos
  · simp at hl

lemma total_thickness_twoLayerStack (n : ℕ) :
    total_thickness (twoLayerStack n) = n + 1 := by
  simp [total_thickness, twoLayerStack]

lemma unique_materials_twoLayerStack (n : ℕ) :
    unique_materials (twoLayerStack n) = 2 := by
  have hm : (twoLayerStack n).map Layer.material = ["FTO", "TiO2"] := rfl
  show ((twoLayerStack n).map Layer.material).toFinset.card = 2
  rw [hm]
  decide

lemma exists_validStack_pce_gt (B : ℚ) :
    ∃ layers, validStack layers ∧ B < (simulate_electrical layers).pce := by
  obtain ⟨m, hm⟩ := exists_nat_gt (200 * B)
  refine ⟨twoLayerStack (m + 1), validStack_twoLayerStack (Nat.succ_pos m), ?_⟩
  have hpce : (simulate_electrical (twoLayerStack (m + 1))).pce
      = roundTo 2 (10 + 1/10 * (unique_materials (twoLayerStack (m + 1)) : ℚ)
          + 5/1000 * (total_thickness (twoLayerStack (m + 1)) : ℚ)) := rfl
  have h1 : (unique_materials (twoLayerStack (m + 1)) : ℚ) = 2 := by
    rw [unique_materials_twoLayerStack]
    norm_num
  have h2 : (total_thickness (twoLayerStack (m + 1)) : ℚ) = (m : ℚ) + 2 := by
    rw [total_thickness_twoLayerStack]
    push_cast
    ring
  have hlow := sub_lt_roundTo 2
    (10 + 1/10 * (unique_materials (twoLayerStack (m + 1)) : ℚ)
      + 5/1000 * (total_thickness (twoLayerStack (m + 1)) : ℚ))
  rw [hpce, h1, h2]
  rw [h1, h2] at hlow
  have hpow : (1 : ℚ) / 10 ^ 2 = 1 / 100 := by norm_num
  rw [hpow] at hlow
  linarith

/-- C4 counterexample: there is no fixed bound B with pce ≤ B for every
valid stack; pce grows without bound as total thickness grows. -/
theorem pce_not_bounded :
    ¬ ∃ B : ℚ, ∀ layers, validStack layers → (simulate_electrical layers).pce ≤ B := by
  rintro ⟨B, hB⟩
  obtain ⟨s, hs, hlt⟩ := exists_validStack_pce_gt B
  exact absurd (hB s hs) (not_le.mpr hlt)

/-- C4 amended: the pce produced by the Electrical Model does not saturate:
for every candidate bound B there is a valid stack whose pce exceeds B (pce
grows linearly in total thickness, with no clamp in the code). -/
theorem pce_unbounded (B : ℚ) :
    ∃ layers, validStack layers ∧ B < (simulate_electrical layers).pce :=
  exists_validStack_pce_gt B

/-! ## Rounding of the returned values -/

/-- A valid stack with total thickness 21 nm, whose first iv_curve entry
0.00021 is not a fixed point of rounding at 1 or 2 decimal places. -/
def oddStack : List Layer :=
  [⟨Role.TCO, "FTO", 10⟩, ⟨Role.ETL, "TiO2", 11⟩]

/-- C7 counterexample: on the stack `oddStack` the iv_curve contains the
entry 0.00021, which differs from its own value rounded at 2 decimal
places (and at 1): iv_curve entries are not rounded. -/
theorem iv_entry_not_rounded :
    (21/100000 : ℚ) ∈ (simulate_electrical oddStack).iv_curve ∧
    roundTo 2 (21/100000) ≠ (21/100000 : ℚ) ∧
    roundTo 1 (21/100000) ≠ (21/100000 : ℚ) := by
  refine ⟨?_, ?_, ?_⟩
  · show (21/100000 : ℚ) ∈ (List.range 100).map (iv_point oddStack)
    rw [List.mem_map]
    refine ⟨0, by simp, ?_⟩
    unfold iv_point
    have h21 : (total_thickness oddStack : ℚ) = 21 := by
      norm_num [total_thickness, oddStack]
    rw [h21]
    norm_num
  · norm_num [roundTo, rhe]
  · norm_num [roundTo, rhe]

/-- C7 amended: the scalars are rounded at the precisions the code applies,
pce and voc at 2 decimal places and jsc at 1, so each scalar equals its own
value after rounding at its precision; iv_curve entries are returned
unrounded. -/
theorem scalars_fixed_under_rounding (layers : List Layer) :
    roundTo 2 ((simulate_electrical layers).pce) = (simulate_electrical layers).pce ∧
    roundTo 2 ((simulate_electrical layers).voc) = (simulate_electrical layers).voc ∧
    roundTo 1 ((simulate_electrical layers).jsc) = (simulate_electrical layers).jsc :=
  ⟨roundTo_roundTo 2 _, roundTo_roundTo 2 _, roundTo_roundTo 1 _⟩

/-- C8: the Electrical Model is total on structurally valid stacks: in the
exact-arithmetic embedding `simulate_electrical` is a total function (no
exception can escape and no division by a stack-dependent quantity occurs),
and on every structurally valid stack it returns finite rational scalars
that are strictly positive, a 100-point iv_curve, and only non-negative
curve entries. -/
theorem electrical_total_on_valid (layers : List Layer)
    (h : structurallyValid layers) :
    0 < (simulate_electrical layers).pce ∧
    0 < (simulate_electrical layers).voc ∧
    0 < (simulate_electrical layers).jsc ∧
    (simulate_electrical layers).iv_curve.length = 100 ∧
    ∀ q ∈ (simulate_electrical layers).iv_curve, 0 ≤ q := by
  have hu : (0 : ℚ) ≤ (unique_materials layers : ℚ) := Nat.cast_nonneg _
  have hT : (0 : ℚ) ≤ (total_thickness layers : ℚ) := Nat.cast_nonneg _
  refine ⟨?_, ?_, ?_, ?_, ?_⟩
  · have hl := sub_lt_roundTo 2 (10 + 1/10 * (unique_materials layers : ℚ)
      + 5/1000 * (total_thickness layers : ℚ))
    have hpce : (simulate_electrical layers).pce
        = roundTo 2 (10 + 1/10 * (unique_materials layers : ℚ)
          + 5/1000 * (total_thickness layers : ℚ)) := rfl
    rw [hpce]
    have hpow : (1 : ℚ) / 10 ^ 2 = 1 / 100 := by norm_num
    rw [hpow] at hl
    linarith
  · have hl := sub_lt_roundTo 2 (6/10 + 1/100 * (unique_materials layers : ℚ))
    have hvoc : (simulate_electrical layers).voc
        = roundTo 2 (6/10 + 1/100 * (unique_materials layers : ℚ)) := rfl
    rw [hvoc]
    have hpow : (1 : ℚ) / 10 ^ 2 = 1 / 100 := by norm_num
    rw [hpow] at hl
    linarith
  · have hl := sub_lt_roundTo 1 (20 + 2/100 * (total_thickness layers : ℚ))
    have hjsc : (simulate_electrical layers).jsc
        = roundTo 1 (20 + 2/100 * (total_thickness layers : ℚ)) := rfl
    rw [hjsc]
    have hpow : (1 : ℚ) / 10 ^ 1 = 1 / 10 := by norm_num
    rw [hpow] at hl
    linarith
  · show ((List.range 100).map (iv_point layers)).length = 100
    rw [List.length_map, List.length_range]
  · intro q hq
    have hq' : q ∈ (List.range 100).map (iv_point layers) := hq
    obtain ⟨i, _, rfl⟩ := List.mem_map.mp hq'
    unfold iv_point
    positivity

theorem electrical_total_on_valid_witness :
    0 < (simulate_electrical sampleStack).pce :=
  (electrical_total_on_valid sampleStack (by decide)).1

/-- C9: for every nonempty stack with positive layer thicknesses, the
iv_curve is strictly increasing with constant step 0.05 between consecutive
points, and its first point equals 0.01 times the total thickness divided
by 1000, which is strictly greater than zero. -/
theorem iv_curve_increasing_first_positive (layers : List Layer)
    (hne : layers ≠ []) (hpos : ∀ l ∈ layers, 0 < l.thickness) :
    (∀ i (hi : i + 1 < (simulate_electrical layers).iv_curve.length),
      (simulate_electrical layers).iv_curve.get ⟨i, by omega⟩
          < (simulate_electrical layers).iv_curve.get ⟨i + 1, hi⟩ ∧
      (simulate_electrical layers).iv_curve.get ⟨i + 1, hi⟩
          - (simulate_electrical layers).iv_curve.get ⟨i, by omega⟩ = 5/100) ∧
    ∀ h0 : 0 < (simulate_electrical layers).iv_curve.length,
      (simulate_electrical layers).iv_curve.get ⟨0, h0⟩
          = (1/100) * (total_thickness layers : ℚ) / 1000 ∧
      0 < (simulate_electrical layers).iv_curve.get ⟨0, h0⟩ := by
  have hiv : (simulate_electrical layers).iv_curve
      = (List.range 100).map (iv_point layers) := rfl
  have hT : 0 < total_thickness layers := by
    obtain ⟨l, ls, rfl⟩ := List.exists_cons_of_ne_nil hne
    have hl := hpos l (List.mem_cons_self l ls)
    unfold total_thickness
    rw [List.map_cons, List.sum_cons]
    omega
  have hTQ : (0 : ℚ) < (total_thickness layers : ℚ) := by exact_mod_cast hT
  constructor
  · intro i hi
    simp only [List.get_eq_getElem, hiv, List.getElem_map, List.getElem_range]
    unfold iv_point
    constructor
    · push_cast
      linarith
    · push_cast
      ring
  · intro h0
    simp only [List.get_eq_getElem, hiv, List.getElem_map, List.getElem_range]
    unfold iv_point
    constructor
    · norm_num
    · push_cast
      linarith

theorem iv_curve_increasing_first_positive_witness :
    0 < (simulate_electrical sampleStack).iv_curve.get
        ⟨0, by simp [simulate_electrical]⟩ :=
  ((iv_curve_increasing_first_positive sampleStack (by decide) (by decide)).2
    (by simp [simulate_electrical])).2
